import Mathlib

/-!
# DocConnect call-establishment subsystem: a shallow embedding

This file embeds the real-time call-establishment core of the DocConnect
repository in Lean 4 and proves properties of it.

Server side (`src/server/src/socket.js`): the module keeps two plain objects,
`users` (socket id → user id) and `rooms` (room id → array of
`{socketId, userId}`), and installs handlers for `userJoined`, `joinRoom`,
`sendOffer`, `sendAnswer`, `sendIceCandidate`, `leaveRoom` and `disconnect`.
JavaScript objects keyed by strings are modelled as association lists in
insertion order; `obj[k]` is `lookupA`, `obj[k] = v` is `setA`,
`delete obj[k]` is `delA`.  Socket.io's per-room broadcast bookkeeping
(`socket.join` / `socket.leave` / `socket.to(room).emit`) is modelled by a
`transport` map from room id to the list of sockets currently joined to the
transport room, and `io.to(target).emit` delivers to the socket named
`target` when it is a live connection (each socket sits in a personal room
named by its own id; room-id/socket-id name collisions are outside the
claims, which quantify over connection ids).

Client side (`src/client/src/context/SocketContext.tsx`): modelled further
below in this file.

Every emission a handler performs is recorded as an `Emit` value carrying
the concrete recipient list computed at emission time.
-/

/-! ## Definitions: the embedded program -/

/-- A member record `{socketId, userId}` as pushed by the `joinRoom` handler. -/
structure Member where
  socketId : String
  userId : String
deriving DecidableEq, Repr

/-- Association-list lookup: `obj[k]`, first binding wins. -/
def lookupA {β : Type} : List (String × β) → String → Option β
  | [], _ => none
  | (k, v) :: rest, key => if k = key then some v else lookupA rest key

/-- Association-list update: `obj[k] = v` (replace the binding in place, or
append a new one, as JavaScript property assignment does). -/
def setA {β : Type} : List (String × β) → String → β → List (String × β)
  | [], key, v => [(key, v)]
  | (k, w) :: rest, key, v =>
      if k = key then (k, v) :: rest else (k, w) :: setA rest key v

/-- Association-list deletion: `delete obj[k]`. -/
def delA {β : Type} : List (String × β) → String → List (String × β)
  | [], _ => []
  | (k, w) :: rest, key => if k = key then rest else (k, w) :: delA rest key

/-- Observable emissions of the server handlers.  Each carries the concrete
recipient socket list computed at the moment of emission. -/
inductive Emit where
  | roomUsers (recipients : List String) (members : List Member)
  | userJoinedRoom (room : String) (recipients : List String) (m : Member)
  | userLeftRoom (room : String) (recipients : List String) (m : Member)
  | receiveOffer (recipients : List String) (offer : String) (sender : String)
  | receiveAnswer (recipients : List String) (answer : String) (sender : String)
  | receiveIceCandidate (recipients : List String) (candidate : String) (sender : String)
deriving DecidableEq, Repr

/-- The server state: the `users` and `rooms` objects of `socket.js`, plus the
socket.io transport-room bookkeeping and the set of live connections. -/
structure ServerState where
  users : List (String × String)
  rooms : List (String × List Member)
  transport : List (String × List String)
  live : List String
deriving DecidableEq, Repr

/-- The state before any connection: both objects start empty. -/
def initState : ServerState := ⟨[], [], [], []⟩

/-- `rooms[r]`, reading an absent room as the empty member list. -/
def roomMembers (st : ServerState) (r : String) : List Member :=
  (lookupA st.rooms r).getD []

/-- The sockets currently joined to transport room `r`. -/
def transportOf (st : ServerState) (r : String) : List String :=
  (lookupA st.transport r).getD []

/-- Recipients of `io.to(target).emit`: the socket named `target` when live. -/
def ioTo (st : ServerState) (target : String) : List String :=
  if target ∈ st.live then [target] else []

/-- Recipients of `socket.to(room).emit`: every socket in the transport room
except the sender. -/
def socketTo (st : ServerState) (room sender : String) : List String :=
  (transportOf st room).filter (fun s => s ≠ sender)

/-- `socket.join(room)`: add the socket to the transport room (idempotent). -/
def addT (t : List (String × List String)) (room sock : String) :
    List (String × List String) :=
  let cur := (lookupA t room).getD []
  if sock ∈ cur then t else setA t room (cur ++ [sock])

/-- `socket.leave(room)`: remove the socket from the transport room. -/
def removeT (t : List (String × List String)) (room sock : String) :
    List (String × List String) :=
  match lookupA t room with
  | some l => setA t room (l.filter (fun s => s ≠ sock))
  | none => t

/-- Transport-side effect of a disconnect: the socket leaves every room
before the `disconnect` handler runs. -/
def removeAllT (t : List (String × List String)) (sock : String) :
    List (String × List String) :=
  t.map (fun p => (p.1, p.2.filter (fun s => s ≠ sock)))

/-- The `userJoined` handler: `users[socket.id] = userId`. -/
def userJoined (st : ServerState) (sock userId : String) : ServerState :=
  { st with users := setA st.users sock userId }

/-- The `joinRoom` handler: `socket.join(roomId)`; initialise the room if
absent; push `{socketId, userId}`; emit `roomUsers` (the post-push list
filtered by `socketId !== socket.id`) to the joiner; broadcast
`userJoinedRoom` to the rest of the room. -/
def joinRoom (st : ServerState) (sock roomId userId : String) :
    ServerState × List Emit :=
  let t1 := addT st.transport roomId sock
  let cur := (lookupA st.rooms roomId).getD []
  let updated := cur ++ [⟨sock, userId⟩]
  let st1 : ServerState := { st with transport := t1, rooms := setA st.rooms roomId updated }
  let usersInRoom := updated.filter (fun m => m.socketId ≠ sock)
  (st1, [Emit.roomUsers [sock] usersInRoom,
         Emit.userJoinedRoom roomId (socketTo st1 roomId sock) ⟨sock, userId⟩])

/-- The `leaveRoom` handler: if the room exists, filter the socket out;
delete the room if the result is empty, otherwise broadcast `userLeftRoom`
to the rest of the room; finally `socket.leave(roomId)`. -/
def leaveRoom (st : ServerState) (sock roomId userId : String) :
    ServerState × List Emit :=
  let res : ServerState × List Emit :=
    match lookupA st.rooms roomId with
    | some l =>
        let filtered := l.filter (fun m => m.socketId ≠ sock)
        if filtered.isEmpty then
          ({ st with rooms := delA st.rooms roomId }, [])
        else
          ({ st with rooms := setA st.rooms roomId filtered },
           [Emit.userLeftRoom roomId (socketTo st roomId sock) ⟨sock, userId⟩])
    | none => (st, [])
  ({ res.1 with transport := removeT res.1.transport roomId sock }, res.2)

/-- The per-room body of the `disconnect` handler's `Object.keys(rooms)`
loop: where the socket is found, filter it out, emit one `userLeftRoom`
(recipients read from the post-disconnect transport map `t`), and drop the
room when emptied. -/
def cleanupRooms (sock : String) (t : List (String × List String)) :
    List (String × List Member) → List (String × List Member) × List Emit
  | [] => ([], [])
  | (r, l) :: rest =>
      let tail := cleanupRooms sock t rest
      match l.find? (fun m => m.socketId = sock) with
      | some found =>
          let filtered := l.filter (fun m => m.socketId ≠ sock)
          let e := Emit.userLeftRoom r (((lookupA t r).getD []).filter (fun s => s ≠ sock))
                     ⟨sock, found.userId⟩
          if filtered.isEmpty then (tail.1, e :: tail.2)
          else ((r, filtered) :: tail.1, e :: tail.2)
      | none => ((r, l) :: tail.1, tail.2)

/-- The `disconnect` handler: socket.io first removes the socket from every
transport room and from the live set, then the handler sweeps every room,
and finally `delete users[socket.id]`. -/
def disconnect (st : ServerState) (sock : String) : ServerState × List Emit :=
  let t1 := removeAllT st.transport sock
  let live1 := st.live.filter (fun s => s ≠ sock)
  let swept := cleanupRooms sock t1 st.rooms
  (⟨delA st.users sock, swept.1, t1, live1⟩, swept.2)

/-- The `sendOffer` handler: `io.to(to).emit('receiveOffer', {offer,
from: socket.id})`.  The caller-supplied `fro` field is destructured by the
handler but never forwarded (it is only logged). -/
def sendOffer (st : ServerState) (sock offer dest fro : String) :
    ServerState × List Emit :=
  (st, [Emit.receiveOffer (ioTo st dest) offer sock])

/-- The `sendAnswer` handler. -/
def sendAnswer (st : ServerState) (sock answer dest fro : String) :
    ServerState × List Emit :=
  (st, [Emit.receiveAnswer (ioTo st dest) answer sock])

/-- The `sendIceCandidate` handler. -/
def sendIceCandidate (st : ServerState) (sock candidate dest fro : String) :
    ServerState × List Emit :=
  (st, [Emit.receiveIceCandidate (ioTo st dest) candidate sock])

/-- The registry-mutating operations a trace may contain. -/
inductive Op where
  | connect (sock : String)
  | identify (sock userId : String)
  | join (sock roomId userId : String)
  | leave (sock roomId userId : String)
  | disconnect (sock : String)
deriving DecidableEq, Repr

/-- One operation applied to the server state, with its emissions. -/
def run (st : ServerState) : Op → ServerState × List Emit
  | .connect sock =>
      ({ st with live := if sock ∈ st.live then st.live else st.live ++ [sock] }, [])
  | .identify sock u => (userJoined st sock u, [])
  | .join sock r u => joinRoom st sock r u
  | .leave sock r u => leaveRoom st sock r u
  | .disconnect sock => disconnect st sock

/-- A whole trace of operations, discarding emissions. -/
def runSeq (st : ServerState) : List Op → ServerState
  | [] => st
  | op :: ops => runSeq (run st op).1 ops

/-- Every room binding holds a non-empty member list. -/
def RoomsNE (st : ServerState) : Prop :=
  ∀ b ∈ st.rooms, b.2 ≠ ([] : List Member)

/-- Every room binding holds a list of members with pairwise-distinct
connection ids. -/
def RoomsND (st : ServerState) : Prop :=
  ∀ b ∈ st.rooms, ((b.2).map Member.socketId).Nodup

/-- The guard on an operation under which the duplicate-free invariant is
preserved: a `join` must not come from a socket already in the room. -/
def guardedOp (st : ServerState) : Op → Bool
  | .join sock r _ => decide (sock ∉ (roomMembers st r).map Member.socketId)
  | _ => true

/-- A trace is guarded when every operation is guarded in the state in which
it runs. -/
def guardedRun : ServerState → List Op → Bool
  | _, [] => true
  | st, op :: ops => guardedOp st op && guardedRun (run st op).1 ops

/-- Transport-room membership mirrors registry membership, as sets of socket
ids.  This holds in every state reachable from `initState` (each operation
updates both sides consistently) and is the precondition linking broadcast
recipients to registry members. -/
def Coherent (st : ServerState) : Prop :=
  ∀ r s, s ∈ transportOf st r ↔ s ∈ (roomMembers st r).map Member.socketId

/-- Every transport room lists each socket at most once (`socket.join` is
idempotent). -/
def TransportND (st : ServerState) : Prop :=
  ∀ r, (transportOf st r).Nodup

/-- A small concrete coherent state: one room `"r"` with single member
`"b"`, used by witnesses. -/
def exampleState : ServerState := ⟨[], [("r", [⟨"b", "v"⟩])], [("r", ["b"])], []⟩

/-- Number of `userLeftRoom` emissions for room `r` in an emission list. -/
def countLeft (ems : List Emit) (r : String) : Nat :=
  (ems.filter (fun e => match e with
    | Emit.userLeftRoom rr _ _ => decide (rr = r)
    | _ => false)).length

/-- A room user entry `{socketId, userId}` as the client stores it. -/
structure RoomUser where
  socketId : String
  userId : String
deriving DecidableEq, Repr

/-- The client-side state of the socket context provider
(`SocketContext.tsx`): the `peers` and `remoteStreams` maps, `localStream`,
`users`, `currentRoom` and `isCallActive`.  Sessions and capture streams are
opaque `Nat`s; `destroyed` records every session on which `destroy()` was
called, `stoppedTracks` every capture stream whose tracks were stopped, and
`signals` every `peer.signal(payload)` delivery, so resource handling is
observable in the final state.  The frame theorems quantify over arbitrary
map contents; `nextSession` is the number a (non-crashing) session-creation
path would allocate next. -/
structure ClientState where
  peers : List (String × Nat)
  remoteStreams : List (String × Nat)
  localStream : Option Nat
  usersC : List RoomUser
  currentRoom : Option String
  isCallActive : Bool
  nextSession : Nat
  destroyed : List Nat
  stoppedTracks : List Nat
  signals : List (Nat × String)
deriving DecidableEq, Repr

/-- The provider's initial state. -/
def initClient : ClientState := ⟨[], [], none, [], none, false, 0, [], [], []⟩

/-- The component-scoped `createPeerConnection` (SocketContext.tsx:148-217).
It shadows the identically named import from `services/webrtc`, so its first
statement — line 154, `const peer = createPeerConnection({initiator, stream,
config})` — resolves to the function itself: an unconditional self-call with
no base case (the argument shape matches the shadowed import's signature,
not its own).  `gas` is the remaining call stack; exhausting it is the
thrown `RangeError: Maximum call stack size exceeded`.  Nothing after the
self-call is ever reached — no `Peer` is constructed, no callback is
registered, and `setPeers` never runs — so for every finite stack the
function throws without producing a value (`createPeerConnectionC_throws`).
The success payload `α` is the caller's choice; callers here use `Empty`
since no value can ever arrive. -/
def createPeerConnectionC (α : Type) : Nat → Option α
  | 0 => none
  | gas + 1 => createPeerConnectionC α gas

/-- The `receiveOffer` handler: `if (!localStream) return` drops the offer
with no state change; otherwise its first action is
`createPeerConnection(from, socket.id, localStream, offer)`, which throws
for every stack size, so the handler aborts before any state setter runs.
The result pairs the committed state with whether an exception escaped. -/
def receiveOffer (st : ClientState) (fro off : String) (gas : Nat) :
    ClientState × Bool :=
  match st.localStream with
  | none => (st, false)
  | some _ =>
      match createPeerConnectionC Empty gas with
      | none => (st, true)
      | some e => e.elim

/-- The `receiveAnswer` handler: signal the answer into the peer stored for
the sender, if any; otherwise do nothing. -/
def receiveAnswer (st : ClientState) (fro ans : String) : ClientState :=
  match lookupA st.peers fro with
  | some p => { st with signals := st.signals ++ [(p, ans)] }
  | none => st

/-- The `receiveIceCandidate` handler: like `receiveAnswer`. -/
def receiveIceCandidate (st : ClientState) (fro cand : String) : ClientState :=
  match lookupA st.peers fro with
  | some p => { st with signals := st.signals ++ [(p, cand)] }
  | none => st

/-- The `userLeftRoom` handler: drop the user from the local list; if a peer
exists for the socket, destroy it and delete its map entry; delete the
remote-stream entry if present.  The local stream is not touched. -/
def userLeftRoom (st : ClientState) (sock : String) : ClientState :=
  let st1 := { st with usersC := st.usersC.filter (fun u => u.socketId ≠ sock) }
  let st2 :=
    match lookupA st1.peers sock with
    | some p => { st1 with
                  destroyed := st1.destroyed ++ [p]
                  peers := delA st1.peers sock }
    | none => st1
  match lookupA st2.remoteStreams sock with
  | some _ => { st2 with remoteStreams := delA st2.remoteStreams sock }
  | none => st2

/-- The `peer.on('close')` handler body for one remote id: destroy the
stored peer (if any) and delete its `peers` and `remoteStreams` entries. -/
def peerClose (st : ClientState) (remote : String) : ClientState :=
  let st1 :=
    match lookupA st.peers remote with
    | some p => { st with destroyed := st.destroyed ++ [p] }
    | none => st
  { st1 with
    peers := delA st1.peers remote
    remoteStreams := delA st1.remoteStreams remote }

/-- The `userJoinedRoom` handler: append the arriving user to the list. -/
def userJoinedRoomC (st : ClientState) (u : RoomUser) : ClientState :=
  { st with usersC := st.usersC ++ [u] }

/-- `startCall` (success path of `getUserMedia`, yielding capture stream
`s`): `setLocalStream(stream)` and `setIsCallActive(true)` are committed
first; then `users.forEach(u => createPeerConnection(...))` — with any user
present the first iteration throws inside the shadowed self-call, aborting
the handler with the stream already stored and no peer created; with no
users the loop body never runs and the call setup completes. -/
def startCall (st : ClientState) (s : Nat) (gas : Nat) : ClientState × Bool :=
  let st1 := { st with localStream := some s, isCallActive := true }
  match st1.usersC with
  | [] => (st1, false)
  | _ :: _ =>
      match createPeerConnectionC Empty gas with
      | none => (st1, true)
      | some e => e.elim

/-- `endCall`: when a local stream exists, stop its tracks, clear it, mark
the call inactive, destroy every peer, and clear both maps. -/
def endCall (st : ClientState) : ClientState :=
  match st.localStream with
  | none => st
  | some s =>
      { st with
        stoppedTracks := st.stoppedTracks ++ [s]
        localStream := none
        isCallActive := false
        destroyed := st.destroyed ++ st.peers.map Prod.snd
        peers := []
        remoteStreams := [] }

/-- Client `leaveRoom`: when in a room, clear the local membership view,
destroy every peer and clear both maps; the local stream is not touched. -/
def leaveRoomC (st : ClientState) : ClientState :=
  match st.currentRoom with
  | none => st
  | some _ =>
      { st with
        currentRoom := none
        usersC := []
        destroyed := st.destroyed ++ st.peers.map Prod.snd
        peers := []
        remoteStreams := [] }

/-- A concrete client state in a call (stream 5) with no sessions and no
room users. -/
def exampleInCall : ClientState := ⟨[], [], some 5, [], none, true, 0, [], [], []⟩

/-- A concrete client state: sessions 0 toward `"b"` (with a remote stream)
and 1 toward `"c"`, in a call on stream 100. -/
def exampleClient : ClientState :=
  ⟨[("b", 0), ("c", 1)], [("b", 7)], some 100, [⟨"b", "u"⟩, ⟨"c", "w"⟩],
   some "r", true, 2, [], [], []⟩

/-- The reachable-state invariant: transport rooms mirror registry
membership, transport rooms are duplicate-free, and both maps have unique
keys. -/
def GoodState (st : ServerState) : Prop :=
  Coherent st ∧ TransportND st ∧
  (st.rooms.map Prod.fst).Nodup ∧ (st.transport.map Prod.fst).Nodup

/-! ## Theorems -/

example : lookupA (runSeq initState [Op.join "a" "r" "u"]).rooms "r"
    = some [⟨"a", "u"⟩] := by decide

example : lookupA (runSeq initState [Op.join "a" "r" "u", Op.join "a" "r" "u"]).rooms "r"
    = some [⟨"a", "u"⟩, ⟨"a", "u"⟩] := by decide

example : (runSeq initState [Op.join "a" "r" "u", Op.leave "a" "r" "u"]).rooms = [] := by
  decide

theorem lookupA_setA_self {β : Type} (l : List (String × β)) (k : String) (v : β) :
    lookupA (setA l k v) k = some v := by
  induction l with
  | nil => simp [setA, lookupA]
  | cons p rest ih =>
      obtain ⟨k', w⟩ := p
      by_cases h : k' = k <;> simp [setA, lookupA, h, ih]

theorem lookupA_setA_ne {β : Type} (l : List (String × β)) {k k' : String} (v : β)
    (h : k' ≠ k) : lookupA (setA l k v) k' = lookupA l k' := by
  induction l with
  | nil => simp [setA, lookupA, Ne.symm h]
  | cons p rest ih =>
      obtain ⟨k0, w⟩ := p
      by_cases h0 : k0 = k
      · subst h0
        simp [setA, lookupA, Ne.symm h]
      · simp [setA, lookupA, h0, ih]

theorem setA_self_eq {β : Type} {l : List (String × β)} {k : String} {v : β}
    (h : lookupA l k = some v) : setA l k v = l := by
  induction l with
  | nil => simp [lookupA] at h
  | cons p rest ih =>
      obtain ⟨k0, w⟩ := p
      by_cases h0 : k0 = k
      · subst h0
        simp [lookupA] at h
        simp [setA, h]
      · simp [lookupA, h0] at h
        simp [setA, h0, ih h]

theorem mem_setA {β : Type} {l : List (String × β)} {k : String} {v : β}
    {b : String × β} (h : b ∈ setA l k v) : b = (k, v) ∨ b ∈ l := by
  induction l with
  | nil => simpa [setA] using h
  | cons p rest ih =>
      obtain ⟨k0, w⟩ := p
      by_cases h0 : k0 = k
      · subst h0
        rcases (by simpa [setA] using h : b = (k0, v) ∨ b ∈ rest) with h1 | h1
        · exact Or.inl h1
        · exact Or.inr (List.mem_cons_of_mem _ h1)
      · rcases (by simpa [setA, h0] using h : b = (k0, w) ∨ b ∈ setA rest k v) with h1 | h1
        · exact Or.inr (by simp [h1])
        · rcases ih h1 with h2 | h2
          · exact Or.inl h2
          · exact Or.inr (List.mem_cons_of_mem _ h2)

theorem mem_delA {β : Type} {l : List (String × β)} {k : String}
    {b : String × β} (h : b ∈ delA l k) : b ∈ l := by
  induction l with
  | nil => simpa [delA] using h
  | cons p rest ih =>
      obtain ⟨k0, w⟩ := p
      by_cases h0 : k0 = k
      · exact List.mem_cons_of_mem _ (by simpa [delA, h0] using h)
      · rcases (by simpa [delA, h0] using h : b = (k0, w) ∨ b ∈ delA rest k) with h1 | h1
        · simp [h1]
        · exact List.mem_cons_of_mem _ (ih h1)

theorem lookupA_mem {β : Type} {l : List (String × β)} {k : String} {v : β}
    (h : lookupA l k = some v) : (k, v) ∈ l := by
  induction l with
  | nil => simp [lookupA] at h
  | cons p rest ih =>
      obtain ⟨k0, w⟩ := p
      by_cases h0 : k0 = k
      · subst h0
        simp [lookupA] at h
        simp [h]
      · simp [lookupA, h0] at h
        exact List.mem_cons_of_mem _ (ih h)

theorem lookupA_eq_none {β : Type} {l : List (String × β)} {k : String}
    (h : k ∉ l.map Prod.fst) : lookupA l k = none := by
  induction l with
  | nil => simp [lookupA]
  | cons p rest ih =>
      obtain ⟨k0, w⟩ := p
      simp only [List.map_cons, List.mem_cons] at h
      push_neg at h
      simp [lookupA, Ne.symm h.1, ih h.2]

theorem mem_cleanupRooms {sock : String} {t : List (String × List String)} :
    ∀ {rooms : List (String × List Member)} {b : String × List Member},
      b ∈ (cleanupRooms sock t rooms).1 →
      ∃ l, (b.1, l) ∈ rooms ∧
        (b.2 = l ∨ (b.2 = l.filter (fun m => m.socketId ≠ sock) ∧ b.2 ≠ [])) := by
  intro rooms
  induction rooms with
  | nil => intro b h; simp [cleanupRooms] at h
  | cons p rest ih =>
      obtain ⟨r, l⟩ := p
      intro b h
      simp only [cleanupRooms] at h
      cases hf : l.find? (fun m => m.socketId = sock) with
      | some found =>
          rw [hf] at h
          by_cases he : (l.filter (fun m => m.socketId ≠ sock)).isEmpty
          · simp only [he, if_true] at h
            obtain ⟨l', hmem, hcase⟩ := ih h
            exact ⟨l', List.mem_cons_of_mem _ hmem, hcase⟩
          · simp only [he, if_false] at h
            rcases List.mem_cons.mp h with h1 | h1
            · refine ⟨l, by simp [h1], Or.inr ⟨by simp [h1], ?_⟩⟩
              subst h1
              simpa [List.isEmpty_iff] using he
            · obtain ⟨l', hmem, hcase⟩ := ih h1
              exact ⟨l', List.mem_cons_of_mem _ hmem, hcase⟩
      | none =>
          rw [hf] at h
          rcases List.mem_cons.mp h with h1 | h1
          · exact ⟨l, by simp [h1], Or.inl (by simp [h1])⟩
          · obtain ⟨l', hmem, hcase⟩ := ih h1
            exact ⟨l', List.mem_cons_of_mem _ hmem, hcase⟩

theorem roomsNE_joinRoom {st : ServerState} (h : RoomsNE st) (sock r u : String) :
    RoomsNE (joinRoom st sock r u).1 := by
  intro b hb
  simp only [joinRoom] at hb
  rcases mem_setA hb with h1 | h1
  · simp [h1]
  · exact h b h1

theorem roomsNE_leaveRoom {st : ServerState} (h : RoomsNE st) (sock r u : String) :
    RoomsNE (leaveRoom st sock r u).1 := by
  intro b hb
  cases hl : lookupA st.rooms r with
  | none =>
      simp only [leaveRoom, hl] at hb
      exact h b hb
  | some l =>
      by_cases he : (l.filter (fun m => m.socketId ≠ sock)).isEmpty
      · simp only [leaveRoom, hl, he, if_true] at hb
        exact h b (mem_delA hb)
      · simp only [leaveRoom, hl, he, if_false] at hb
        rcases mem_setA hb with h1 | h1
        · rw [h1]
          intro hc
        
          exact he (by rw [show l.filter (fun m => m.socketId ≠ sock) = [] from hc]; rfl)
        · exact h b h1

theorem roomsNE_disconnect {st : ServerState} (h : RoomsNE st) (sock : String) :
    RoomsNE (disconnect st sock).1 := by
  intro b hb
  simp only [disconnect] at hb
  obtain ⟨l, hmem, hcase⟩ := mem_cleanupRooms hb
  rcases hcase with h1 | h1
  · rw [h1]; exact h (b.1, l) hmem
  · exact h1.2

theorem roomsNE_run (st : ServerState) (op : Op) (h : RoomsNE st) :
    RoomsNE (run st op).1 := by
  cases op with
  | connect sock => exact fun b hb => h b hb
  | identify sock u => exact fun b hb => h b hb
  | join sock r u => exact roomsNE_joinRoom h sock r u
  | leave sock r u => exact roomsNE_leaveRoom h sock r u
  | disconnect sock => exact roomsNE_disconnect h sock

theorem roomsNE_runSeq :
    ∀ (ops : List Op) (st : ServerState), RoomsNE st → RoomsNE (runSeq st ops)
  | [], _, h => h
  | op :: ops, st, h => roomsNE_runSeq ops _ (roomsNE_run st op h)

theorem roomsND_joinRoom {st : ServerState} (h : RoomsND st) {sock r : String}
    (u : String) (hg : sock ∉ (roomMembers st r).map Member.socketId) :
    RoomsND (joinRoom st sock r u).1 := by
  intro b hb
  simp only [joinRoom] at hb
  rcases mem_setA hb with h1 | h1
  · rw [h1]
    simp only [List.map_append, List.map_cons, List.map_nil]
    have hcur : (((lookupA st.rooms r).getD []).map Member.socketId).Nodup := by
      cases hl : lookupA st.rooms r with
      | none => simp
      | some l => simpa using h (r, l) (lookupA_mem hl)
    have hnotin : sock ∉ ((lookupA st.rooms r).getD []).map Member.socketId := by
      simpa [roomMembers] using hg
    rw [List.nodup_append]
    refine ⟨hcur, List.nodup_singleton sock, ?_⟩
    intro a ha hb
    rw [List.mem_singleton] at hb
    exact hnotin (hb ▸ ha)
  · exact h b h1

theorem roomsND_leaveRoom {st : ServerState} (h : RoomsND st) (sock r u : String) :
    RoomsND (leaveRoom st sock r u).1 := by
  intro b hb
  cases hl : lookupA st.rooms r with
  | none =>
      simp only [leaveRoom, hl] at hb
      exact h b hb
  | some l =>
      by_cases he : (l.filter (fun m => m.socketId ≠ sock)).isEmpty
      · simp only [leaveRoom, hl, he, if_true] at hb
        exact h b (mem_delA hb)
      · simp only [leaveRoom, hl, he, if_false] at hb
        rcases mem_setA hb with h1 | h1
        · rw [h1]
          exact ((List.filter_sublist l).map Member.socketId).nodup
            (h (r, l) (lookupA_mem hl))
        · exact h b h1

theorem roomsND_disconnect {st : ServerState} (h : RoomsND st) (sock : String) :
    RoomsND (disconnect st sock).1 := by
  intro b hb
  simp only [disconnect] at hb
  obtain ⟨l, hmem, hcase⟩ := mem_cleanupRooms hb
  rcases hcase with h1 | h1
  · rw [h1]; exact h (b.1, l) hmem
  · rw [h1.1]
    exact ((List.filter_sublist l).map Member.socketId).nodup (h (b.1, l) hmem)

theorem roomsND_run (st : ServerState) (op : Op) (h : RoomsND st)
    (hg : guardedOp st op = true) : RoomsND (run st op).1 := by
  cases op with
  | connect sock => exact fun b hb => h b hb
  | identify sock u => exact fun b hb => h b hb
  | join sock r u =>
      exact roomsND_joinRoom h u (by simpa [guardedOp] using hg)
  | leave sock r u => exact roomsND_leaveRoom h sock r u
  | disconnect sock => exact roomsND_disconnect h sock

theorem roomsND_runSeq :
    ∀ (ops : List Op) (st : ServerState), RoomsND st →
      guardedRun st ops = true → RoomsND (runSeq st ops)
  | [], _, h, _ => h
  | op :: ops, st, h, hg => by
      rw [guardedRun, Bool.and_eq_true] at hg
      exact roomsND_runSeq ops _ (roomsND_run st op h hg.1) hg.2

/-- C1: starting from the empty registry, a room id is present if and only if
its member list is non-empty — this holds for every sequence of operations —
while freedom from duplicate connection ids in a member list holds only for
guarded traces, in which no connection joins a room it is already a member
of (the unguarded claim is refuted by `c1_duplicate_member_counterexample`). -/
theorem c1_registry_invariants (ops : List Op) :
    (∀ r l, lookupA (runSeq initState ops).rooms r = some l → l ≠ []) ∧
    (guardedRun initState ops = true →
      ∀ r l, lookupA (runSeq initState ops).rooms r = some l →
        (l.map Member.socketId).Nodup) := by
  constructor
  · intro r l hl
    exact roomsNE_runSeq ops initState (fun b hb => by simp [initState] at hb)
      (r, l) (lookupA_mem hl)
  · intro hg r l hl
    exact roomsND_runSeq ops initState (fun b hb => by simp [initState] at hb)
      hg (r, l) (lookupA_mem hl)

/-- Witness for C1 at a concrete guarded trace. -/
theorem c1_registry_invariants_witness :
    (lookupA (runSeq initState [Op.join "a" "r" "u"]).rooms "r" = some [⟨"a", "u"⟩]) ∧
    ([(⟨"a", "u"⟩ : Member)] ≠ []) ∧
    (guardedRun initState [Op.join "a" "r" "u"] = true) ∧
    (([(⟨"a", "u"⟩ : Member)].map Member.socketId).Nodup) := by
  refine ⟨by decide, ?_, by decide, ?_⟩
  · exact (c1_registry_invariants [Op.join "a" "r" "u"]).1 "r" [⟨"a", "u"⟩] (by decide)
  · exact (c1_registry_invariants [Op.join "a" "r" "u"]).2 (by decide) "r" [⟨"a", "u"⟩]
      (by decide)

/-- C1 counterexample: the `joinRoom` handler pushes unconditionally, so a
connection joining the same room twice yields two member entries with the
same connection id. -/
theorem c1_duplicate_member_counterexample :
    lookupA (runSeq initState [Op.join "a" "r" "u", Op.join "a" "r" "u"]).rooms "r"
      = some [⟨"a", "u"⟩, ⟨"a", "u"⟩] ∧
    ¬ (([(⟨"a", "u"⟩ : Member), ⟨"a", "u"⟩].map Member.socketId).Nodup) :=
  ⟨by decide, by decide⟩

/-- C2: for each of the three signaling envelopes, the delivered `from` field
is the server's record of the sender's connection id (the socket the handler
runs under), and the delivery is independent of the caller-supplied `from`:
two sends identical except for a forged `from` produce identical results. -/
theorem c2_relay_overwrites_from (st : ServerState)
    (sock offer answer candidate dest fro1 fro2 : String) :
    sendOffer st sock offer dest fro1 = sendOffer st sock offer dest fro2 ∧
    sendAnswer st sock answer dest fro1 = sendAnswer st sock answer dest fro2 ∧
    sendIceCandidate st sock candidate dest fro1
      = sendIceCandidate st sock candidate dest fro2 ∧
    (sendOffer st sock offer dest fro1).2
      = [Emit.receiveOffer (ioTo st dest) offer sock] ∧
    (sendAnswer st sock answer dest fro1).2
      = [Emit.receiveAnswer (ioTo st dest) answer sock] ∧
    (sendIceCandidate st sock candidate dest fro1).2
      = [Emit.receiveIceCandidate (ioTo st dest) candidate sock] :=
  ⟨rfl, rfl, rfl, rfl, rfl, rfl⟩

/-- C10: the relay consults neither the room registry nor the identity map —
the delivery of each signaling envelope is the same whatever the `users`,
`rooms` and transport contents are (in particular when sender and recipient
share no room and the sender never identified), and a live recipient named
by `to` receives the envelope. -/
theorem c10_relay_no_membership_check
    (users1 users2 : List (String × String))
    (rooms1 rooms2 : List (String × List Member))
    (t1 t2 : List (String × List String)) (live : List String)
    (a b offer answer candidate fro : String) (hb : b ∈ live) :
    (sendOffer ⟨users1, rooms1, t1, live⟩ a offer b fro).2
      = [Emit.receiveOffer [b] offer a] ∧
    (sendAnswer ⟨users1, rooms1, t1, live⟩ a answer b fro).2
      = [Emit.receiveAnswer [b] answer a] ∧
    (sendIceCandidate ⟨users1, rooms1, t1, live⟩ a candidate b fro).2
      = [Emit.receiveIceCandidate [b] candidate a] ∧
    (sendOffer ⟨users1, rooms1, t1, live⟩ a offer b fro).2
      = (sendOffer ⟨users2, rooms2, t2, live⟩ a offer b fro).2 ∧
    (sendAnswer ⟨users1, rooms1, t1, live⟩ a answer b fro).2
      = (sendAnswer ⟨users2, rooms2, t2, live⟩ a answer b fro).2 ∧
    (sendIceCandidate ⟨users1, rooms1, t1, live⟩ a candidate b fro).2
      = (sendIceCandidate ⟨users2, rooms2, t2, live⟩ a candidate b fro).2 := by
  refine ⟨?_, ?_, ?_, rfl, rfl, rfl⟩ <;>
    simp [sendOffer, sendAnswer, sendIceCandidate, ioTo, hb]

/-- Witness for C10 at a concrete live recipient. -/
theorem c10_relay_witness :
    ("b" : String) ∈ ["b"] ∧
    (sendOffer ⟨[], [], [], ["b"]⟩ "a" "o" "b" "forged").2
      = [Emit.receiveOffer ["b"] "o" "a"] :=
  ⟨by decide,
   (c10_relay_no_membership_check [] [] [] [] [] [] ["b"]
      "a" "b" "o" "ans" "cand" "forged" (by decide)).1⟩

/-- C9 (amended): the identity map is keyed by connection id, not user id:
an identity-association message sets the sender connection's own binding
(overwriting that connection's earlier identity) and leaves every other
connection's binding untouched — so a user id can stay associated with
several live connections at once. -/
theorem c9_identity_keyed_by_connection (st : ServerState) (sock u : String) :
    (userJoined st sock u).users = setA st.users sock u ∧
    lookupA (userJoined st sock u).users sock = some u ∧
    (∀ s, s ≠ sock → lookupA (userJoined st sock u).users s = lookupA st.users s) := by
  refine ⟨rfl, lookupA_setA_self _ _ _, ?_⟩
  intro s hs
  exact lookupA_setA_ne st.users u hs

/-- Witness for C9 at a concrete state. -/
theorem c9_identity_witness :
    ("s2" : String) ≠ "s1" ∧
    lookupA (userJoined initState "s1" "u").users "s1" = some "u" ∧
    lookupA (userJoined initState "s1" "u").users "s2" = lookupA initState.users "s2" :=
  ⟨by decide, (c9_identity_keyed_by_connection initState "s1" "u").2.1,
   (c9_identity_keyed_by_connection initState "s1" "u").2.2 "s2" (by decide)⟩

/-- C9 counterexample: after two identity-association messages from two
distinct live connections carrying the same user id, both connections remain
associated with it — the later association does not displace the earlier. -/
theorem c9_shared_identity_counterexample :
    lookupA (runSeq initState [Op.connect "s1", Op.connect "s2",
      Op.identify "s1" "u", Op.identify "s2" "u"]).users "s1" = some "u" ∧
    lookupA (runSeq initState [Op.connect "s1", Op.connect "s2",
      Op.identify "s1" "u", Op.identify "s2" "u"]).users "s2" = some "u" ∧
    ("s1" : String) ≠ "s2" ∧
    ("s1" : String) ∈ (runSeq initState [Op.connect "s1", Op.connect "s2",
      Op.identify "s1" "u", Op.identify "s2" "u"]).live ∧
    ("s2" : String) ∈ (runSeq initState [Op.connect "s1", Op.connect "s2",
      Op.identify "s1" "u", Op.identify "s2" "u"]).live :=
  ⟨by decide, by decide, by decide, by decide, by decide⟩

theorem filter_ne_eq_self {l : List String} {x : String} (h : x ∉ l) :
    l.filter (fun s => s ≠ x) = l := by
  rw [List.filter_eq_self]
  intro a ha
  exact decide_eq_true (fun he => h (he ▸ ha))

theorem filter_members_eq_self {l : List Member} {x : String}
    (h : x ∉ l.map Member.socketId) : l.filter (fun m => m.socketId ≠ x) = l := by
  rw [List.filter_eq_self]
  intro a ha
  exact decide_eq_true (fun he => h (List.mem_map.mpr ⟨a, ha, he⟩))

theorem transport_addT_not_mem {t : List (String × List String)} {r sock : String}
    (h : sock ∉ (lookupA t r).getD []) :
    (lookupA (addT t r sock) r).getD [] = (lookupA t r).getD [] ++ [sock] := by
  simp [addT, h, lookupA_setA_self]

/-- C3 (amended): on a coherent state (all reachable states are coherent,
see `goodState_runSeq`), provided the joining connection is not
already a member of the room, the joiner's `roomUsers` reply is exactly the
pre-join member list, and the `userJoinedRoom` broadcast carrying the
joiner's socket and user id goes to exactly the pre-join members: each
pre-join member's socket is a recipient, every recipient is a pre-join
member, and the recipient list has no duplicates, so each receives it once.
Both views are computed from the same pre-join registry state. -/
theorem c3_join_views (st : ServerState) (sock r u : String)
    (hnd : TransportND st) (hco : Coherent st)
    (hnew : sock ∉ (roomMembers st r).map Member.socketId) :
    (joinRoom st sock r u).2
      = [Emit.roomUsers [sock] (roomMembers st r),
         Emit.userJoinedRoom r (transportOf st r) ⟨sock, u⟩] ∧
    (∀ s, s ∈ transportOf st r ↔ s ∈ (roomMembers st r).map Member.socketId) ∧
    (transportOf st r).Nodup := by
  have hsock : sock ∉ (lookupA st.transport r).getD [] :=
    fun hmem => hnew ((hco r sock).mp hmem)
  refine ⟨?_, hco r, hnd r⟩
  have hnew' : sock ∉ ((lookupA st.rooms r).getD []).map Member.socketId := by
    simpa [roomMembers] using hnew
  have h1 : ((lookupA st.rooms r).getD [] ++ [(⟨sock, u⟩ : Member)]).filter
      (fun m => m.socketId ≠ sock) = (lookupA st.rooms r).getD [] := by
    rw [List.filter_append, filter_members_eq_self hnew']
    simp
  simp only [joinRoom, socketTo, transportOf, roomMembers]
  rw [h1, transport_addT_not_mem hsock, List.filter_append, filter_ne_eq_self hsock]
  simp

theorem exampleState_transportND : TransportND exampleState := by
  intro r
  simp only [transportOf, exampleState]
  by_cases h : ("r" : String) = r <;> simp [lookupA, h]

theorem exampleState_coherent : Coherent exampleState := by
  intro r s
  simp only [transportOf, roomMembers, exampleState]
  by_cases h : ("r" : String) = r <;> simp [lookupA, h]

/-- Witness for C3 at a concrete coherent state. -/
theorem c3_join_witness :
    TransportND exampleState ∧ Coherent exampleState ∧
    ("a" ∉ (roomMembers exampleState "r").map Member.socketId) ∧
    (joinRoom exampleState "a" "r" "u").2
      = [Emit.roomUsers ["a"] (roomMembers exampleState "r"),
         Emit.userJoinedRoom "r" (transportOf exampleState "r") ⟨"a", "u"⟩] :=
  ⟨exampleState_transportND, exampleState_coherent, by decide,
   (c3_join_views exampleState "a" "r" "u" exampleState_transportND
      exampleState_coherent (by decide)).1⟩

/-- C3 counterexample: when the joining connection is already a member of the
room (reachable by a double join), the joiner's reply is the post-join list
filtered by its own socket id, which omits its pre-join entry — not the
pre-join member snapshot the claim requires for every registry state. -/
theorem c3_prejoin_snapshot_counterexample :
    roomMembers (runSeq initState [Op.join "a" "r" "u"]) "r" = [⟨"a", "u"⟩] ∧
    (joinRoom (runSeq initState [Op.join "a" "r" "u"]) "a" "r" "u").2.head?
      = some (Emit.roomUsers ["a"] []) :=
  ⟨by decide, by decide⟩

/-- C4 (amended): on a coherent state whose rooms are all non-empty (all
reachable states qualify, see `goodState_runSeq` and `roomsNE_runSeq`), a leave
by a connection that is not a member of the room leaves the whole server
state unchanged and raises no error; no notification is produced when the
room is unknown, but when the room exists a `userLeftRoom` notification for
the non-member connection is still broadcast to the room's members. -/
theorem c4_leave_nonmember (st : ServerState) (sock r u : String)
    (hne : RoomsNE st) (hco : Coherent st)
    (hnm : sock ∉ (roomMembers st r).map Member.socketId) :
    (leaveRoom st sock r u).1 = st ∧
    (lookupA st.rooms r = none → (leaveRoom st sock r u).2 = []) ∧
    (∀ l, lookupA st.rooms r = some l →
      (leaveRoom st sock r u).2 = [Emit.userLeftRoom r (transportOf st r) ⟨sock, u⟩]) := by
  have hsock : sock ∉ (lookupA st.transport r).getD [] :=
    fun hmem => hnm ((hco r sock).mp hmem)
  have hrt : removeT st.transport r sock = st.transport := by
    cases ht : lookupA st.transport r with
    | none => simp [removeT, ht]
    | some tl =>
        have htl : sock ∉ tl := by rw [ht] at hsock; exact hsock
        simp only [removeT, ht]
        rw [show tl.filter (fun s => s ≠ sock) = tl from filter_ne_eq_self htl,
            setA_self_eq ht]
  cases hl : lookupA st.rooms r with
  | none =>
      refine ⟨?_, fun _ => ?_, fun l hl' => by simp [hl] at hl'⟩
      · simp [leaveRoom, hl, hrt]
      · simp [leaveRoom, hl]
  | some l =>
      have hlm : sock ∉ l.map Member.socketId := by
        simpa [roomMembers, hl] using hnm
      have hfl : l.filter (fun m => m.socketId ≠ sock) = l :=
        filter_members_eq_self hlm
      have hlne : l ≠ [] := hne (r, l) (lookupA_mem hl)
      have hie : (l.filter (fun m => m.socketId ≠ sock)).isEmpty = false := by
        rw [hfl]
        cases l with
        | nil => exact absurd rfl hlne
        | cons a t => rfl
      refine ⟨?_, fun hnone => by simp [hl] at hnone, fun l' hl' => ?_⟩
      · simp only [leaveRoom, hl]
        split
        next hcond => exact absurd hcond (by rw [hie]; simp)
        next hcond =>
          simp only []
          rw [show l.filter (fun m => m.socketId ≠ sock) = l from hfl,
              setA_self_eq hl, hrt]
      · simp only [leaveRoom, hl]
        split
        next hcond => exact absurd hcond (by rw [hie]; simp)
        next hcond =>
          simp only [socketTo, transportOf]
          rw [filter_ne_eq_self hsock]

theorem exampleState_roomsNE : RoomsNE exampleState := by
  intro b hb
  simp only [exampleState] at hb
  rw [List.mem_singleton.mp hb]
  simp

/-- Witness for C4 at a concrete coherent state. -/
theorem c4_leave_witness :
    RoomsNE exampleState ∧ Coherent exampleState ∧
    ("a" ∉ (roomMembers exampleState "r").map Member.socketId) ∧
    (leaveRoom exampleState "a" "r" "u").1 = exampleState ∧
    (lookupA exampleState.rooms "r" = some [⟨"b", "v"⟩]) ∧
    (leaveRoom exampleState "a" "r" "u").2
      = [Emit.userLeftRoom "r" (transportOf exampleState "r") ⟨"a", "u"⟩] := by
  have h := c4_leave_nonmember exampleState "a" "r" "u" exampleState_roomsNE
    exampleState_coherent (by decide)
  exact ⟨exampleState_roomsNE, exampleState_coherent, by decide, h.1, by decide,
    h.2.2 [⟨"b", "v"⟩] (by decide)⟩

/-- C4 counterexample: a leave for a connection that never joined the room
still broadcasts a `userLeftRoom` notification to the room's members
whenever the room exists, refuting the claim that no observable effect such
as a member-left notification is produced. -/
theorem c4_spurious_member_left_counterexample :
    ("b" ∉ (roomMembers (runSeq initState [Op.join "a" "r" "u"]) "r").map
        Member.socketId) ∧
    (leaveRoom (runSeq initState [Op.join "a" "r" "u"]) "b" "r" "w").2
      = [Emit.userLeftRoom "r" ["a"] ⟨"b", "w"⟩] :=
  ⟨by decide, by decide⟩

theorem countLeft_cons_left (r0 : String) (rc : List String) (m : Member)
    (ems : List Emit) (r : String) :
    countLeft (Emit.userLeftRoom r0 rc m :: ems) r
      = (if r0 = r then 1 else 0) + countLeft ems r := by
  by_cases h : r0 = r <;> simp [countLeft, List.filter_cons, h] <;> omega

theorem not_mem_map_filter (l : List Member) (x : String) :
    x ∉ (l.filter (fun m => m.socketId ≠ x)).map Member.socketId := by
  intro h
  obtain ⟨m, hm, he⟩ := List.mem_map.mp h
  exact (of_decide_eq_true (List.mem_filter.mp hm).2) he

theorem find_none_not_mem {l : List Member} {x : String}
    (hf : l.find? (fun m => m.socketId = x) = none) : x ∉ l.map Member.socketId := by
  intro h
  obtain ⟨m, hm, he⟩ := List.mem_map.mp h
  have := List.find?_eq_none.mp hf m hm
  exact this (decide_eq_true he)

theorem find_some_mem {l : List Member} {x : String} {found : Member}
    (hf : l.find? (fun m => m.socketId = x) = some found) :
    x ∈ l.map Member.socketId := by
  have h1 := List.find?_some hf
  have h2 : found.socketId = x := by simpa using h1
  exact List.mem_map.mpr ⟨found, List.mem_of_find?_eq_some hf, h2⟩

theorem cleanup_not_mem {sock : String} {t : List (String × List String)} :
    ∀ {rooms : List (String × List Member)} {b : String × List Member},
      b ∈ (cleanupRooms sock t rooms).1 → sock ∉ b.2.map Member.socketId := by
  intro rooms
  induction rooms with
  | nil => intro b h; simp [cleanupRooms] at h
  | cons p rest ih =>
      obtain ⟨r, l⟩ := p
      intro b h
      simp only [cleanupRooms] at h
      cases hf : l.find? (fun m => m.socketId = sock) with
      | some found =>
          rw [hf] at h
          by_cases he : (l.filter (fun m => m.socketId ≠ sock)).isEmpty
          · simp only [he, if_true] at h
            exact ih h
          · simp only [he, if_false] at h
            rcases List.mem_cons.mp h with h1 | h1
            · rw [h1]
              exact not_mem_map_filter l sock
            · exact ih h1
      | none =>
          rw [hf] at h
          rcases List.mem_cons.mp h with h1 | h1
          · rw [h1]
            exact find_none_not_mem hf
          · exact ih h1

theorem cleanup_keys_sub {sock : String} {t : List (String × List String)} :
    ∀ {rooms : List (String × List Member)} {k : String},
      k ∈ (cleanupRooms sock t rooms).1.map Prod.fst → k ∈ rooms.map Prod.fst := by
  intro rooms
  induction rooms with
  | nil => intro k h; simp [cleanupRooms] at h
  | cons p rest ih =>
      obtain ⟨r, l⟩ := p
      intro k h
      simp only [cleanupRooms] at h
      cases hf : l.find? (fun m => m.socketId = sock) with
      | some found =>
          rw [hf] at h
          by_cases he : (l.filter (fun m => m.socketId ≠ sock)).isEmpty
          · simp only [he, if_true] at h
            exact List.mem_cons_of_mem _ (ih h)
          · simp only [he, if_false] at h
            rcases (by simpa using h : k = r ∨ k ∈ (cleanupRooms sock t rest).1.map Prod.fst)
              with h1 | h1
            · simp [h1]
            · exact List.mem_cons_of_mem _ (ih h1)
      | none =>
          rw [hf] at h
          rcases (by simpa using h : k = r ∨ k ∈ (cleanupRooms sock t rest).1.map Prod.fst)
            with h1 | h1
          · simp [h1]
          · exact List.mem_cons_of_mem _ (ih h1)

theorem all_eq_of_filter_nil {l : List Member} {x : String}
    (h : l.filter (fun m => m.socketId ≠ x) = []) : ∀ m ∈ l, m.socketId = x := by
  intro m hm
  by_contra hne0
  have hmem : m ∈ l.filter (fun m => m.socketId ≠ x) :=
    List.mem_filter.mpr ⟨hm, decide_eq_true hne0⟩
  rw [h] at hmem
  simp at hmem

theorem cleanup_lookupA {sock : String} {t : List (String × List String)} :
    ∀ {rooms : List (String × List Member)}, (rooms.map Prod.fst).Nodup →
      ∀ r, lookupA (cleanupRooms sock t rooms).1 r
        = match lookupA rooms r with
          | none => none
          | some l =>
              match l.find? (fun m => m.socketId = sock) with
              | none => some l
              | some _ =>
                  if (l.filter (fun m => m.socketId ≠ sock)).isEmpty then none
                  else some (l.filter (fun m => m.socketId ≠ sock)) := by
  intro rooms
  induction rooms with
  | nil => intro _ r; simp [cleanupRooms, lookupA]
  | cons p rest ih =>
      obtain ⟨r0, l0⟩ := p
      intro hnd r
      rw [List.map_cons, List.nodup_cons] at hnd
      obtain ⟨hnotin, hnd'⟩ := hnd
      by_cases hr : r0 = r
      · subst hr
        simp only [lookupA, if_pos rfl, if_true]
        cases hf : l0.find? (fun m => m.socketId = sock) with
        | none =>
            simp only [cleanupRooms, hf]
            simp only [lookupA, if_pos rfl, if_true]
        | some found =>
            by_cases he : (l0.filter (fun m => m.socketId ≠ sock)).isEmpty
            · have hnone : lookupA (cleanupRooms sock t rest).1 r0 = none := by
                apply lookupA_eq_none
                intro hmem
                exact hnotin (cleanup_keys_sub hmem)
              simp only [cleanupRooms, hf, if_pos he]
              rw [hnone]
            · simp only [cleanupRooms, hf, if_neg he]
              simp only [lookupA, if_pos rfl, if_true]
      · cases hf : l0.find? (fun m => m.socketId = sock) with
        | none =>
            simp only [cleanupRooms, hf]
            simp only [lookupA, if_neg hr]
            exact ih hnd' r
        | some found =>
            by_cases he : (l0.filter (fun m => m.socketId ≠ sock)).isEmpty
            · simp only [cleanupRooms, hf, if_pos he]
              simp only [lookupA, if_neg hr]
              exact ih hnd' r
            · simp only [cleanupRooms, hf, if_neg he]
              simp only [lookupA, if_neg hr]
              exact ih hnd' r

theorem cleanup_countLeft {sock : String} {t : List (String × List String)} :
    ∀ {rooms : List (String × List Member)}, (rooms.map Prod.fst).Nodup →
      ∀ r, countLeft (cleanupRooms sock t rooms).2 r
        = match lookupA rooms r with
          | none => 0
          | some l => if sock ∈ l.map Member.socketId then 1 else 0 := by
  intro rooms
  induction rooms with
  | nil => intro _ r; simp [cleanupRooms, lookupA, countLeft]
  | cons p rest ih =>
      obtain ⟨r0, l0⟩ := p
      intro hnd r
      rw [List.map_cons, List.nodup_cons] at hnd
      obtain ⟨hnotin, hnd'⟩ := hnd
      cases hf : l0.find? (fun m => m.socketId = sock) with
      | none =>
          have hns : sock ∉ l0.map Member.socketId := find_none_not_mem hf
          have hred : (cleanupRooms sock t ((r0, l0) :: rest)).2
              = (cleanupRooms sock t rest).2 := by
            simp only [cleanupRooms, hf]
          rw [hred, ih hnd' r]
          by_cases hr : r0 = r
          · subst hr
            have hnone : lookupA rest r0 = none :=
              lookupA_eq_none (fun hm => hnotin hm)
            rw [hnone]
            simp only [lookupA, if_pos rfl, if_true]
            simp [hns]
          · simp only [lookupA, if_neg hr]
      | some found =>
          have hems : (cleanupRooms sock t ((r0, l0) :: rest)).2
              = Emit.userLeftRoom r0
                  (((lookupA t r0).getD []).filter (fun s => s ≠ sock))
                  ⟨sock, found.userId⟩ :: (cleanupRooms sock t rest).2 := by
            by_cases he : (l0.filter (fun m => m.socketId ≠ sock)).isEmpty
            · simp only [cleanupRooms, hf, if_pos he]
            · simp only [cleanupRooms, hf, if_neg he]
          rw [hems, countLeft_cons_left, ih hnd' r]
          by_cases hr : r0 = r
          · subst hr
            have hnone : lookupA rest r0 = none :=
              lookupA_eq_none (fun hm => hnotin hm)
            rw [hnone]
            simp only [lookupA, if_pos rfl, if_true]
            simp [find_some_mem hf]
          · rw [if_neg hr]
            simp only [lookupA, if_neg hr]
            simp

theorem cleanup_noop {sock : String} {t : List (String × List String)} :
    ∀ {rooms : List (String × List Member)},
      (∀ b ∈ rooms, sock ∉ b.2.map Member.socketId) →
      cleanupRooms sock t rooms = (rooms, []) := by
  intro rooms
  induction rooms with
  | nil => intro _; rfl
  | cons p rest ih =>
      obtain ⟨r0, l0⟩ := p
      intro h
      have hf : l0.find? (fun m => m.socketId = sock) = none := by
        rw [List.find?_eq_none]
        intro m hm
        have hmne : m.socketId ≠ sock :=
          fun he => h (r0, l0) (by simp) (List.mem_map.mpr ⟨m, hm, he⟩)
        simp [hmne]
      have ht := ih (fun b hb => h b (List.mem_cons_of_mem _ hb))
      simp only [cleanupRooms, hf, ht]

/-- C5: on a registry whose room keys are unique and whose rooms are
non-empty (all reachable states qualify, see `rooms_keys_nodup_runSeq` and
`roomsNE_runSeq`), the disconnect handler removes the connection from every room
containing it, emits exactly one `userLeftRoom` per room that contained it
(and none for any other room), deletes each room emptied by the removal, and
removes the connection's identity binding; the room-sweep emissions do not
depend on the identity map (which is discarded only after the sweep), and
when no room contains the connection the room registry is untouched and
nothing is emitted. -/
theorem c5_disconnect_cleanup (st : ServerState) (sock : String)
    (hkeys : (st.rooms.map Prod.fst).Nodup) (hne : RoomsNE st) :
    (∀ r, sock ∉ (roomMembers (disconnect st sock).1 r).map Member.socketId) ∧
    (∀ r, countLeft (disconnect st sock).2 r
        = if sock ∈ (roomMembers st r).map Member.socketId then 1 else 0) ∧
    (∀ r l, lookupA st.rooms r = some l →
        l.filter (fun m => m.socketId ≠ sock) = [] →
        lookupA (disconnect st sock).1.rooms r = none) ∧
    ((disconnect st sock).1.users = delA st.users sock) ∧
    (∀ us, (disconnect ⟨us, st.rooms, st.transport, st.live⟩ sock).2
        = (disconnect st sock).2) ∧
    ((∀ b ∈ st.rooms, sock ∉ b.2.map Member.socketId) →
        (disconnect st sock).1.rooms = st.rooms ∧ (disconnect st sock).2 = []) := by
  refine ⟨?_, ?_, ?_, rfl, fun us => rfl, ?_⟩
  · intro r
    simp only [disconnect, roomMembers]
    cases hl : lookupA (cleanupRooms sock (removeAllT st.transport sock) st.rooms).1 r with
    | none => simp
    | some l' => exact cleanup_not_mem (lookupA_mem hl)
  · intro r
    have hgen : ∀ (o : Option (List Member)),
        (match o with
         | none => 0
         | some l => if sock ∈ l.map Member.socketId then 1 else 0)
        = if sock ∈ (o.getD []).map Member.socketId then 1 else 0 := by
      intro o
      cases o <;> simp
    simp only [disconnect]
    rw [cleanup_countLeft hkeys r]
    simp only [roomMembers]
    exact hgen (lookupA st.rooms r)
  · intro r l hl hfe
    simp only [disconnect]
    rw [cleanup_lookupA hkeys r]
    have hlne : l ≠ [] := hne (r, l) (lookupA_mem hl)
    obtain ⟨m0, l', rfl⟩ : ∃ m0 l', l = m0 :: l' := by
      cases l with
      | nil => exact absurd rfl hlne
      | cons a b => exact ⟨a, b, rfl⟩
    have hm0 : m0.socketId = sock :=
      all_eq_of_filter_nil hfe m0 (by simp)
    have hfind : (m0 :: l').find? (fun m => m.socketId = sock) = some m0 := by
      have hd : (fun (m : Member) => decide (m.socketId = sock)) m0 = true :=
        decide_eq_true hm0
      simp [List.find?_cons, hd]
    have hie : ((m0 :: l').filter (fun m => m.socketId ≠ sock)).isEmpty = true := by
      rw [hfe]
      rfl
    simp only [hl, hfind, if_pos hie]
  · intro hnm
    have hno := cleanup_noop (t := removeAllT st.transport sock) hnm
    constructor
    · simp only [disconnect]
      rw [hno]
    · simp only [disconnect]
      rw [hno]

/-- Witness for C5 at a concrete state: disconnecting `"b"` empties and
deletes room `"r"` and produces exactly one `userLeftRoom` for it. -/
theorem c5_disconnect_witness :
    ((exampleState.rooms.map Prod.fst).Nodup) ∧ RoomsNE exampleState ∧
    ("b" ∉ (roomMembers (disconnect exampleState "b").1 "r").map Member.socketId) ∧
    (countLeft (disconnect exampleState "b").2 "r"
      = if "b" ∈ (roomMembers exampleState "r").map Member.socketId then 1 else 0) ∧
    ((disconnect exampleState "b").1.users = delA exampleState.users "b") := by
  have h := c5_disconnect_cleanup exampleState "b" (by decide) exampleState_roomsNE
  exact ⟨by decide, exampleState_roomsNE, h.1 "r", h.2.1 "r", h.2.2.2.1⟩

theorem lookupA_delA_ne {β : Type} {l : List (String × β)} {k k' : String}
    (h : k' ≠ k) : lookupA (delA l k) k' = lookupA l k' := by
  induction l with
  | nil => rfl
  | cons p rest ih =>
      obtain ⟨k0, w⟩ := p
      by_cases h0 : k0 = k
      · subst h0
        simp [delA, lookupA, Ne.symm h]
      · simp [delA, lookupA, h0, ih]

theorem lookupA_delA_self {β : Type} {l : List (String × β)} {k : String}
    (h : (l.map Prod.fst).Nodup) : lookupA (delA l k) k = none := by
  induction l with
  | nil => rfl
  | cons p rest ih =>
      obtain ⟨k0, w⟩ := p
      rw [List.map_cons, List.nodup_cons] at h
      by_cases h0 : k0 = k
      · subst h0
        simp only [delA, if_pos rfl]
        exact lookupA_eq_none h.1
      · simp [delA, lookupA, h0, ih h.2]

theorem delA_not_mem {β : Type} {l : List (String × β)} {k : String}
    (h : lookupA l k = none) : delA l k = l := by
  induction l with
  | nil => rfl
  | cons p rest ih =>
      obtain ⟨k0, w⟩ := p
      by_cases h0 : k0 = k
      · simp [lookupA, h0] at h
      · simp only [lookupA, h0, if_false] at h
        simp [delA, h0, ih h]

theorem mem_keys_setA {β : Type} {l : List (String × β)} {k k' : String} {v : β} :
    k' ∈ (setA l k v).map Prod.fst ↔ k' = k ∨ k' ∈ l.map Prod.fst := by
  induction l with
  | nil => simp [setA]
  | cons p rest ih =>
      obtain ⟨k0, w⟩ := p
      by_cases h0 : k0 = k
      · subst h0
        simp [setA]
      · simp [setA, h0, ih]
        tauto

theorem keys_setA_nodup {β : Type} {l : List (String × β)} {k : String} {v : β}
    (h : (l.map Prod.fst).Nodup) : ((setA l k v).map Prod.fst).Nodup := by
  induction l with
  | nil => simp [setA]
  | cons p rest ih =>
      obtain ⟨k0, w⟩ := p
      rw [List.map_cons, List.nodup_cons] at h
      by_cases h0 : k0 = k
      · subst h0
        have hs : setA ((k0, w) :: rest) k0 v = (k0, v) :: rest := by
          simp [setA]
        rw [hs, List.map_cons, List.nodup_cons]
        exact ⟨h.1, h.2⟩
      · simp only [setA, h0, if_false, List.map_cons, List.nodup_cons]
        refine ⟨?_, ih h.2⟩
        intro hmem
        rcases mem_keys_setA.mp hmem with h1 | h1
        · exact h0 h1
        · exact h.1 h1

theorem createPeerConnectionC_throws (α : Type) :
    ∀ gas, createPeerConnectionC α gas = none
  | 0 => rfl
  | gas + 1 => createPeerConnectionC_throws α gas

/-- C6: the session discipline the claim describes is never exercised by the
code: every session-creation path — an inbound offer while a call is active,
and `startCall` over a non-empty room user list — throws inside the
self-recursive `createPeerConnection` before any `PeerSession` is
constructed or stored, for every stack size.  `receiveOffer` aborts with the
state unchanged, and `startCall` aborts having committed only the stream and
the active flag; no session is ever created, attached, or replaced. -/
theorem c6_create_peer_throws (st : ClientState) (fro off : String) (gas : Nat)
    (hls : st.localStream.isSome) :
    createPeerConnectionC Empty gas = none ∧
    receiveOffer st fro off gas = (st, true) ∧
    (∀ s u rest, st.usersC = u :: rest →
      startCall st s gas
        = ({ st with localStream := some s, isCallActive := true }, true)) := by
  obtain ⟨ls, hs⟩ := Option.isSome_iff_exists.mp hls
  refine ⟨createPeerConnectionC_throws Empty gas, ?_, ?_⟩
  · simp only [receiveOffer, hs, createPeerConnectionC_throws Empty gas]
  · intro s u rest hu
    simp only [startCall, hu, createPeerConnectionC_throws Empty gas]

/-- Witness for C6 at a concrete in-call state with room users present. -/
theorem c6_create_peer_throws_witness :
    (exampleClient.localStream.isSome) ∧
    (exampleClient.usersC = ⟨"b", "u"⟩ :: [⟨"c", "w"⟩]) ∧
    receiveOffer exampleClient "b" "off" 5 = (exampleClient, true) ∧
    startCall exampleClient 9 5
      = ({ exampleClient with localStream := some 9, isCallActive := true }, true) := by
  have h := c6_create_peer_throws exampleClient "b" "off" 5 (by decide)
  exact ⟨by decide, by decide, h.2.1, h.2.2 9 ⟨"b", "u"⟩ [⟨"c", "w"⟩] (by decide)⟩

/-- C7: behaviour of the three handlers on stale messages: an answer or ICE
candidate for a remote id with no stored session is dropped with no state
change; an offer with no local stream active is dropped; but an offer while
a call is active throws inside the self-recursive `createPeerConnection`
(for every stack size) — the committed state is unchanged and no
`PeerSession` is created, yet the handler crashes rather than dropping the
message. -/
theorem c7_stale_message_behaviour (st : ClientState) (fro ans cand off : String)
    (gas : Nat) :
    (lookupA st.peers fro = none → receiveAnswer st fro ans = st) ∧
    (lookupA st.peers fro = none → receiveIceCandidate st fro cand = st) ∧
    (st.localStream = none → receiveOffer st fro off gas = (st, false)) ∧
    (st.localStream.isSome → receiveOffer st fro off gas = (st, true)) := by
  refine ⟨fun h => by simp [receiveAnswer, h],
    fun h => by simp [receiveIceCandidate, h],
    fun h => by simp [receiveOffer, h],
    fun hls => ?_⟩
  obtain ⟨ls, hs⟩ := Option.isSome_iff_exists.mp hls
  simp only [receiveOffer, hs, createPeerConnectionC_throws Empty gas]

/-- Witness for C7: concrete stale messages before and during a call. -/
theorem c7_stale_message_witness :
    (lookupA exampleInCall.peers "x" = none) ∧
    receiveAnswer exampleInCall "x" "a" = exampleInCall ∧
    receiveIceCandidate exampleInCall "x" "c" = exampleInCall ∧
    (initClient.localStream = none) ∧
    receiveOffer initClient "x" "o" 5 = (initClient, false) ∧
    (exampleInCall.localStream.isSome) ∧
    receiveOffer exampleInCall "x" "o" 5 = (exampleInCall, true) := by
  have h := c7_stale_message_behaviour exampleInCall "x" "a" "c" "o" 5
  have h0 := c7_stale_message_behaviour initClient "x" "a" "c" "o" 5
  exact ⟨by decide, h.1 (by decide), h.2.1 (by decide), by decide,
    h0.2.2.1 (by decide), by decide, h.2.2.2 (by decide)⟩

theorem userLeftRoom_eq (st : ClientState) (sock : String) :
    userLeftRoom st sock
      = { st with
          usersC := st.usersC.filter (fun u => u.socketId ≠ sock)
          peers := delA st.peers sock
          remoteStreams := delA st.remoteStreams sock
          destroyed := st.destroyed
            ++ (match lookupA st.peers sock with
                | some p => [p]
                | none => []) } := by
  cases hp : lookupA st.peers sock with
  | some p =>
      cases hs : lookupA st.remoteStreams sock with
      | some s => simp [userLeftRoom, hp, hs]
      | none => simp [userLeftRoom, hp, hs, delA_not_mem hs]
  | none =>
      cases hs : lookupA st.remoteStreams sock with
      | some s => simp [userLeftRoom, hp, hs, delA_not_mem hp]
      | none => simp [userLeftRoom, hp, hs, delA_not_mem hp, delA_not_mem hs]

theorem peerClose_eq (st : ClientState) (remote : String) :
    peerClose st remote
      = { st with
          peers := delA st.peers remote
          remoteStreams := delA st.remoteStreams remote
          destroyed := st.destroyed
            ++ (match lookupA st.peers remote with
                | some p => [p]
                | none => []) } := by
  cases hp : lookupA st.peers remote with
  | some p => simp [peerClose, hp]
  | none => simp [peerClose, hp]

/-- C8: closing the session for one remote id — on that member leaving the
room or on the negotiation's close event — destroys exactly that session's
negotiation object and removes only its `peers` and `remoteStreams`
entries; the local capture stream, its tracks, and every other remote id's
entries are untouched.  Neither session closure nor the client-side room
leave stops any capture-stream track: tracks are stopped exactly by
`endCall`, which ends the whole call. -/
theorem c8_session_close_frame (st : ClientState) (sock : String) :
    ((userLeftRoom st sock).localStream = st.localStream) ∧
    ((userLeftRoom st sock).stoppedTracks = st.stoppedTracks) ∧
    (∀ k, k ≠ sock →
      lookupA (userLeftRoom st sock).peers k = lookupA st.peers k ∧
      lookupA (userLeftRoom st sock).remoteStreams k = lookupA st.remoteStreams k) ∧
    ((st.peers.map Prod.fst).Nodup → lookupA (userLeftRoom st sock).peers sock = none) ∧
    ((st.remoteStreams.map Prod.fst).Nodup →
      lookupA (userLeftRoom st sock).remoteStreams sock = none) ∧
    ((userLeftRoom st sock).destroyed
      = st.destroyed ++ (match lookupA st.peers sock with
          | some p => [p]
          | none => [])) ∧
    ((peerClose st sock).localStream = st.localStream) ∧
    ((peerClose st sock).stoppedTracks = st.stoppedTracks) ∧
    (∀ k, k ≠ sock →
      lookupA (peerClose st sock).peers k = lookupA st.peers k ∧
      lookupA (peerClose st sock).remoteStreams k = lookupA st.remoteStreams k) ∧
    ((leaveRoomC st).stoppedTracks = st.stoppedTracks ∧
      (leaveRoomC st).localStream = st.localStream) ∧
    ((endCall st).stoppedTracks
      = st.stoppedTracks ++ (match st.localStream with
          | some s => [s]
          | none => [])) := by
  rw [userLeftRoom_eq, peerClose_eq]
  refine ⟨rfl, rfl,
    fun k hk => ⟨lookupA_delA_ne hk, lookupA_delA_ne hk⟩,
    fun h => lookupA_delA_self h,
    fun h => lookupA_delA_self h,
    rfl, rfl, rfl,
    fun k hk => ⟨lookupA_delA_ne hk, lookupA_delA_ne hk⟩,
    ?_, ?_⟩
  · cases hr : st.currentRoom <;> simp [leaveRoomC, hr]
  · cases hls : st.localStream <;> simp [endCall, hls]

/-- Witness for C8: closing the session for `"b"` leaves the local stream,
the track bookkeeping and `"c"`'s session untouched, removes `"b"`'s
entries, and `endCall` stops the capture stream's tracks. -/
theorem c8_session_close_witness :
    (("c" : String) ≠ "b") ∧
    ((exampleClient.peers.map Prod.fst).Nodup) ∧
    ((exampleClient.remoteStreams.map Prod.fst).Nodup) ∧
    (userLeftRoom exampleClient "b").localStream = exampleClient.localStream ∧
    (userLeftRoom exampleClient "b").stoppedTracks = exampleClient.stoppedTracks ∧
    lookupA (userLeftRoom exampleClient "b").peers "c"
      = lookupA exampleClient.peers "c" ∧
    lookupA (userLeftRoom exampleClient "b").peers "b" = none ∧
    lookupA (userLeftRoom exampleClient "b").remoteStreams "b" = none ∧
    (endCall exampleClient).stoppedTracks
      = exampleClient.stoppedTracks ++ (match exampleClient.localStream with
          | some s => [s]
          | none => []) := by
  have h := c8_session_close_frame exampleClient "b"
  exact ⟨by decide, by decide, by decide, h.1, h.2.1,
    (h.2.2.1 "c" (by decide)).1, h.2.2.2.1 (by decide),
    h.2.2.2.2.1 (by decide), h.2.2.2.2.2.2.2.2.2.2⟩

theorem mem_filter_ne_str {l : List String} {x s : String} :
    s ∈ l.filter (fun a => a ≠ x) ↔ s ∈ l ∧ s ≠ x := by
  rw [List.mem_filter]
  constructor
  · exact fun h => ⟨h.1, of_decide_eq_true h.2⟩
  · exact fun h => ⟨h.1, decide_eq_true h.2⟩

theorem mem_map_filter_ne {l : List Member} {x s : String} :
    s ∈ (l.filter (fun m => m.socketId ≠ x)).map Member.socketId
      ↔ s ∈ l.map Member.socketId ∧ s ≠ x := by
  constructor
  · intro h
    obtain ⟨m, hm, he⟩ := List.mem_map.mp h
    obtain ⟨hml, hmp⟩ := List.mem_filter.mp hm
    exact ⟨List.mem_map.mpr ⟨m, hml, he⟩, he ▸ of_decide_eq_true hmp⟩
  · intro ⟨h1, h2⟩
    obtain ⟨m, hm, he⟩ := List.mem_map.mp h1
    exact List.mem_map.mpr
      ⟨m, List.mem_filter.mpr ⟨hm, decide_eq_true (he ▸ h2)⟩, he⟩

theorem keys_delA_sublist {β : Type} (l : List (String × β)) (k : String) :
    ((delA l k).map Prod.fst).Sublist (l.map Prod.fst) := by
  induction l with
  | nil => simp [delA]
  | cons p rest ih =>
      obtain ⟨k0, w⟩ := p
      by_cases h0 : k0 = k
      · simp only [delA, h0, if_true, List.map_cons]
        exact (List.sublist_cons_self _ _)
      · simp only [delA, h0, if_false, List.map_cons]
        exact ih.cons₂ k0

theorem cleanup_keys_sublist {sock : String} {t : List (String × List String)} :
    ∀ (rooms : List (String × List Member)),
      ((cleanupRooms sock t rooms).1.map Prod.fst).Sublist (rooms.map Prod.fst) := by
  intro rooms
  induction rooms with
  | nil => simp [cleanupRooms]
  | cons p rest ih =>
      obtain ⟨r0, l0⟩ := p
      cases hf : l0.find? (fun m => m.socketId = sock) with
      | none =>
          simp only [cleanupRooms, hf, List.map_cons]
          exact ih.cons₂ r0
      | some found =>
          by_cases he : (l0.filter (fun m => m.socketId ≠ sock)).isEmpty
          · simp only [cleanupRooms, hf, if_pos he, List.map_cons]
            exact ih.cons r0
          · simp only [cleanupRooms, hf, if_neg he, List.map_cons]
            exact ih.cons₂ r0

theorem keys_removeAllT (t : List (String × List String)) (sock : String) :
    (removeAllT t sock).map Prod.fst = t.map Prod.fst := by
  simp [removeAllT]

theorem lookupA_removeAllT (t : List (String × List String)) (sock r : String) :
    lookupA (removeAllT t sock) r
      = (lookupA t r).map (fun l => l.filter (fun s => s ≠ sock)) := by
  induction t with
  | nil => rfl
  | cons p rest ih =>
      obtain ⟨r0, l0⟩ := p
      by_cases h0 : r0 = r <;> simp [removeAllT, lookupA, h0] <;>
        simpa [removeAllT] using ih

theorem goodState_init : GoodState initState := by
  refine ⟨fun r s => ?_, fun r => ?_, ?_, ?_⟩ <;>
    simp [initState, transportOf, roomMembers, lookupA]

theorem transport_addT_self (t : List (String × List String)) (r sock : String) :
    (lookupA (addT t r sock) r).getD []
      = if sock ∈ (lookupA t r).getD [] then (lookupA t r).getD []
        else (lookupA t r).getD [] ++ [sock] := by
  by_cases hmem : sock ∈ (lookupA t r).getD []
  · simp [addT, hmem]
  · simp [addT, hmem, lookupA_setA_self]

theorem lookupA_addT_ne {t : List (String × List String)} {r r' sock : String}
    (h : r' ≠ r) : lookupA (addT t r sock) r' = lookupA t r' := by
  by_cases hmem : sock ∈ (lookupA t r).getD []
  · simp [addT, hmem]
  · simp [addT, hmem, lookupA_setA_ne _ _ h]

theorem transport_removeT_self (t : List (String × List String)) (r sock : String) :
    (lookupA (removeT t r sock) r).getD []
      = ((lookupA t r).getD []).filter (fun s => s ≠ sock) := by
  cases ht : lookupA t r with
  | none => simp [removeT, ht]
  | some tl => simp [removeT, ht, lookupA_setA_self]

theorem lookupA_removeT_ne {t : List (String × List String)} {r r' sock : String}
    (h : r' ≠ r) : lookupA (removeT t r sock) r' = lookupA t r' := by
  cases ht : lookupA t r with
  | none => simp [removeT, ht]
  | some tl => simp [removeT, ht, lookupA_setA_ne _ _ h]

theorem goodState_join {st : ServerState} (h : GoodState st) (sock r u : String) :
    GoodState (joinRoom st sock r u).1 := by
  obtain ⟨hco, hnd, hkr, hkt⟩ := h
  refine ⟨?_, ?_, ?_, ?_⟩
  · intro r' s
    simp only [joinRoom, transportOf, roomMembers]
    have base := hco r' s
    simp only [transportOf, roomMembers] at base
    by_cases hr : r' = r
    · subst hr
      rw [transport_addT_self, lookupA_setA_self]
      simp only [Option.getD_some, List.map_append, List.map_cons, List.map_nil,
        List.mem_append, List.mem_cons, List.not_mem_nil, or_false]
      by_cases hmem : sock ∈ (lookupA st.transport r').getD []
      · rw [if_pos hmem]
        constructor
        · exact fun hs => Or.inl (base.mp hs)
        · rintro (hs | hs)
          · exact base.mpr hs
          · exact hs ▸ hmem
      · rw [if_neg hmem]
        simp only [List.mem_append, List.mem_singleton]
        rw [base]
    · rw [lookupA_addT_ne hr, lookupA_setA_ne _ _ hr]
      exact base
  · intro r'
    simp only [joinRoom, transportOf]
    by_cases hr : r' = r
    · subst hr
      rw [transport_addT_self]
      by_cases hmem : sock ∈ (lookupA st.transport r').getD []
      · rw [if_pos hmem]
        exact hnd r'
      · rw [if_neg hmem]
        rw [List.nodup_append]
        refine ⟨hnd r', List.nodup_singleton sock, ?_⟩
        intro a ha hb
        rw [List.mem_singleton] at hb
        exact hmem (hb ▸ ha)
    · rw [lookupA_addT_ne hr]
      exact hnd r'
  · exact keys_setA_nodup hkr
  · simp only [joinRoom, addT]
    by_cases hmem : sock ∈ (lookupA st.transport r).getD []
    · simpa [hmem] using hkt
    · simpa [hmem] using keys_setA_nodup hkt

theorem leaveRoom_state_eq (st : ServerState) (sock r u : String) :
    (leaveRoom st sock r u).1
      = { st with
          rooms :=
            match lookupA st.rooms r with
            | none => st.rooms
            | some l =>
                if (l.filter (fun m => m.socketId ≠ sock)).isEmpty
                then delA st.rooms r
                else setA st.rooms r (l.filter (fun m => m.socketId ≠ sock))
          transport := removeT st.transport r sock } := by
  cases hl : lookupA st.rooms r with
  | none => simp only [leaveRoom, hl]
  | some l =>
      by_cases he : (l.filter (fun m => m.socketId ≠ sock)).isEmpty
      · simp only [leaveRoom, hl, if_pos he]
      · simp only [leaveRoom, hl, if_neg he]

theorem goodState_leave {st : ServerState} (h : GoodState st) (sock r u : String) :
    GoodState (leaveRoom st sock r u).1 := by
  obtain ⟨hco, hnd, hkr, hkt⟩ := h
  rw [leaveRoom_state_eq]
  refine ⟨?_, ?_, ?_, ?_⟩
  · intro r' s
    simp only [transportOf, roomMembers]
    have base := hco r' s
    simp only [transportOf, roomMembers] at base
    by_cases hr : r' = r
    · subst hr
      rw [transport_removeT_self, mem_filter_ne_str]
      cases hl : lookupA st.rooms r' with
      | none =>
          rw [hl] at base
          simp only [hl, Option.getD_none, List.map_nil, List.not_mem_nil] at base ⊢
          simp [base]
      | some l =>
          rw [hl] at base
          simp only [Option.getD_some] at base
          by_cases he : (l.filter (fun m => m.socketId ≠ sock)).isEmpty
          · simp only [hl, if_pos he]
            rw [lookupA_delA_self hkr]
            simp only [Option.getD_none, List.map_nil, List.not_mem_nil, iff_false]
            intro ⟨hs1, hs2⟩
            have hm : s ∈ (l.filter (fun m => m.socketId ≠ sock)).map Member.socketId :=
              mem_map_filter_ne.mpr ⟨base.mp hs1, hs2⟩
            rw [List.isEmpty_iff.mp he] at hm
            simp at hm
          · simp only [hl, if_neg he]
            rw [lookupA_setA_self]
            simp only [Option.getD_some]
            rw [mem_map_filter_ne, base]
    · rw [lookupA_removeT_ne hr]
      cases hl : lookupA st.rooms r with
      | none =>
          simp only [hl]
          exact base
      | some l =>
          simp only [hl]
          by_cases he : (l.filter (fun m => m.socketId ≠ sock)).isEmpty
          · simp only [if_pos he]
            rw [lookupA_delA_ne hr]
            exact base
          · simp only [if_neg he]
            rw [lookupA_setA_ne _ _ hr]
            exact base
  · intro r'
    simp only [transportOf]
    by_cases hr : r' = r
    · subst hr
      rw [transport_removeT_self]
      exact ((List.filter_sublist _).nodup (hnd r'))
    · rw [lookupA_removeT_ne hr]
      exact hnd r'
  · cases hl : lookupA st.rooms r with
    | none => exact hkr
    | some l =>
        by_cases he : (l.filter (fun m => m.socketId ≠ sock)).isEmpty
        · simp only [if_pos he]
          exact (keys_delA_sublist st.rooms r).nodup hkr
        · simp only [if_neg he]
          exact keys_setA_nodup hkr
  · simp only [removeT]
    cases ht : lookupA st.transport r with
    | none => exact hkt
    | some tl => exact keys_setA_nodup hkt

theorem goodState_disconnect {st : ServerState} (h : GoodState st) (sock : String) :
    GoodState (disconnect st sock).1 := by
  obtain ⟨hco, hnd, hkr, hkt⟩ := h
  have htr : ∀ r', (lookupA (removeAllT st.transport sock) r').getD []
      = ((lookupA st.transport r').getD []).filter (fun a => a ≠ sock) := by
    intro r'
    rw [lookupA_removeAllT]
    cases lookupA st.transport r' <;> simp
  refine ⟨?_, ?_, ?_, ?_⟩
  · intro r' s
    simp only [disconnect, transportOf, roomMembers]
    have base := hco r' s
    simp only [transportOf, roomMembers] at base
    rw [htr r', mem_filter_ne_str, cleanup_lookupA hkr r']
    cases hl : lookupA st.rooms r' with
    | none =>
        rw [hl] at base
        simp only [Option.getD_none, List.map_nil, List.not_mem_nil] at base
        simp [base]
    | some l =>
        rw [hl] at base
        simp only [Option.getD_some] at base
        cases hf : l.find? (fun m => m.socketId = sock) with
        | none =>
            have hns : sock ∉ l.map Member.socketId := find_none_not_mem hf
            simp only [hf, Option.getD_some]
            constructor
            · exact fun hs => base.mp hs.1
            · intro hm
              refine ⟨base.mpr hm, ?_⟩
              intro heq
              exact hns (heq ▸ hm)
        | some found =>
            by_cases he : (l.filter (fun m => m.socketId ≠ sock)).isEmpty
            · simp only [hf, if_pos he]
              simp only [Option.getD_none, List.map_nil, List.not_mem_nil, iff_false]
              intro ⟨hs1, hs2⟩
              have hm : s ∈ (l.filter (fun m => m.socketId ≠ sock)).map Member.socketId :=
                mem_map_filter_ne.mpr ⟨base.mp hs1, hs2⟩
              rw [List.isEmpty_iff.mp he] at hm
              simp at hm
            · simp only [hf, if_neg he]
              simp only [Option.getD_some]
              rw [mem_map_filter_ne, base]
  · intro r'
    simp only [disconnect, transportOf]
    rw [htr r']
    exact (List.filter_sublist _).nodup (hnd r')
  · simp only [disconnect]
    exact (cleanup_keys_sublist st.rooms).nodup hkr
  · simp only [disconnect]
    rw [keys_removeAllT]
    exact hkt

theorem goodState_run (st : ServerState) (op : Op) (h : GoodState st) :
    GoodState (run st op).1 := by
  cases op with
  | connect sock => exact h
  | identify sock u => exact h
  | join sock r u => exact goodState_join h sock r u
  | leave sock r u => exact goodState_leave h sock r u
  | disconnect sock => exact goodState_disconnect h sock

theorem goodState_runSeq_from :
    ∀ (ops : List Op) (st : ServerState), GoodState st → GoodState (runSeq st ops)
  | [], _, h => h
  | op :: ops, st, h => goodState_runSeq_from ops _ (goodState_run st op h)

/-- Every state reachable from the initial state is coherent, has
duplicate-free transport rooms, and has unique keys in both maps — so the
preconditions of the join/leave/disconnect theorems hold along every
execution. -/
theorem goodState_runSeq (ops : List Op) : GoodState (runSeq initState ops) :=
  goodState_runSeq_from ops initState goodState_init

/-- Room keys stay unique along every execution (the form used by the
disconnect theorem). -/
theorem rooms_keys_nodup_runSeq (ops : List Op) :
    (((runSeq initState ops).rooms.map Prod.fst)).Nodup :=
  (goodState_runSeq ops).2.2.1
